import Mathlib

/-!
# Orbit camera and ring placement of the Suzanne scene

A shallow embedding of `common/controls.cpp` (the orbit camera driven by the
keyboard) and of the placement arithmetic of
`tutorial09_vbo_indexing/tutorial09_several_objects.cpp` (eight heads on a ring).

The program computes in `float`.  The embedding is written over an arbitrary
linearly ordered field `α` and reads every `float` operation as the exact field
operation; the functions the program takes from the C math library (`cosf`,
`sinf`, `std::cos`, `std::sin`, `sqrt`, the constant `M_PI`) are the operations
of the class `MathFns`.  The theorems are stated over `ℝ`, where these are the
real cosine, sine, square root and `π`.  Rounding, overflow and NaN are outside
the model.
-/

namespace Suzanne

/-! ## Scalars -/

/-- The C math library as the program uses it: `M_PI`, `cosf`/`std::cos`,
`sinf`/`std::sin` and `sqrt`. -/
class MathFns (α : Type) where
  /-- The constant `M_PI`. -/
  pi : α
  /-- The functions `cosf` and `std::cos`. -/
  cos : α → α
  /-- The functions `sinf` and `std::sin`. -/
  sin : α → α
  /-- The function `sqrt`. -/
  sqrt : α → α

/-- The real numbers with the real `π`, cosine, sine and square root. -/
noncomputable instance realMathFns : MathFns ℝ where
  pi := Real.pi
  cos := Real.cos
  sin := Real.sin
  sqrt := Real.sqrt

section Defs

variable {α : Type} [LinearOrderedField α] [MathFns α]

/-- The function `glm::radians`: degrees to radians.  GLM multiplies by the literal
`0.01745329251994329576923690768489`, which is `π / 180`. -/
def radians (degrees : α) : α := degrees * (MathFns.pi / 180)

/-- The function `glm::half_pi<float>()`. -/
def half_pi : α := MathFns.pi / 2

/-- The function `glm::max(x, y)`, which is `(x < y) ? y : x`. -/
def glmMax (x y : α) : α := if x < y then y else x

/-! ## The camera controls (`common/controls.cpp`) -/

/-- What `glfwGetKey` returns: `GLFW_RELEASE` (0) or `GLFW_PRESS` (1). -/
inductive KeyAction where
  | GLFW_RELEASE
  | GLFW_PRESS
  deriving DecidableEq, Repr

open KeyAction

/-- What one call of `computeMatricesFromInputs` reads from GLFW: the clock
(`glfwGetTime`, the sample `now`) and the seven keys (`glfwGetKey`). -/
structure Frame (α : Type) where
  /-- The sample `now = glfwGetTime()`. -/
  now : α
  /-- The key `GLFW_KEY_W`: zoom in. -/
  keyW : KeyAction
  /-- The key `GLFW_KEY_S`: zoom out. -/
  keyS : KeyAction
  /-- The key `GLFW_KEY_A`. -/
  keyA : KeyAction
  /-- The key `GLFW_KEY_D`. -/
  keyD : KeyAction
  /-- The key `GLFW_KEY_UP`. -/
  keyUp : KeyAction
  /-- The key `GLFW_KEY_DOWN`. -/
  keyDown : KeyAction
  /-- The key `GLFW_KEY_L`: the value `lNow`. -/
  keyL : KeyAction

/-- The variables `computeMatricesFromInputs` reads and writes: the module's
camera state and the function's two `static` locals. -/
structure CameraState (α : Type) where
  /-- The local `static double lastTime`. -/
  lastTime : α
  /-- The distance from the origin. -/
  g_radius : α
  /-- The angle around Z, in radians. -/
  g_azimuth : α
  /-- The angle up/down, in radians. -/
  g_elevation : α
  /-- The flag the L key toggles. -/
  g_enableDiffuseSpec : Bool
  /-- The local `static int lastL`. -/
  lastL : KeyAction

/-- The constant `kAngSpeed = 1.8f`, in rad/sec. -/
def kAngSpeed : α := 1.8

/-- The constant `kZoomSpeed = 6.0f`, in units/sec. -/
def kZoomSpeed : α := 6.0

/-- The local `maxEl = glm::radians(89.9f)` of `computeMatricesFromInputs`. -/
def maxEl : α := radians 89.9

/-- The state update of `computeMatricesFromInputs` (controls.cpp, lines 98-161):
the frame time, the six movement keys, the edge-triggered L toggle and the clamps.
The rest of the function (lines 163-172) builds `ViewMatrix` from `cameraPosition`
of the state returned here and `ProjectionMatrix` from constants; the function
never reads those two back. -/
def computeMatricesFromInputs (f : Frame α) (s : CameraState α) : CameraState α :=
  let dt := f.now - s.lastTime
  let radius1 := if f.keyW = GLFW_PRESS then s.g_radius - kZoomSpeed * dt else s.g_radius
  let radius2 := if f.keyS = GLFW_PRESS then radius1 + kZoomSpeed * dt else radius1
  let azimuth1 := if f.keyA = GLFW_PRESS then s.g_azimuth - kAngSpeed * dt else s.g_azimuth
  let azimuth2 := if f.keyD = GLFW_PRESS then azimuth1 + kAngSpeed * dt else azimuth1
  let elevation1 :=
    if f.keyUp = GLFW_PRESS then s.g_elevation + kAngSpeed * dt else s.g_elevation
  let elevation2 :=
    if f.keyDown = GLFW_PRESS then elevation1 - kAngSpeed * dt else elevation1
  let enable :=
    if f.keyL = GLFW_PRESS ∧ s.lastL = GLFW_RELEASE then !s.g_enableDiffuseSpec
    else s.g_enableDiffuseSpec
  let radius3 := glmMax radius2 2.0
  let elevation3 := if elevation2 > maxEl then maxEl else elevation2
  let elevation4 := if elevation3 < -maxEl then -maxEl else elevation3
  { lastTime := f.now
    g_radius := radius3
    g_azimuth := azimuth2
    g_elevation := elevation4
    g_enableDiffuseSpec := enable
    lastL := f.keyL }

/-- A vector `glm::vec3`. -/
structure Vec3 (α : Type) where
  x : α
  y : α
  z : α

/-- The point `cam` that `computeMatricesFromInputs` passes to `glm::lookAt`
(controls.cpp, lines 164-167), from the state after the clamps. -/
def cameraPosition (s : CameraState α) : Vec3 α :=
  { x := s.g_radius * MathFns.cos s.g_elevation * MathFns.cos s.g_azimuth
    y := s.g_radius * MathFns.cos s.g_elevation * MathFns.sin s.g_azimuth
    z := s.g_radius * MathFns.sin s.g_elevation }

/-- The state after calling `computeMatricesFromInputs` once per frame of `fs`,
in order. -/
def runFrames (fs : List (Frame α)) (s : CameraState α) : CameraState α :=
  fs.foldl (fun st f => computeMatricesFromInputs f st) s

/-- The values at process start (controls.cpp, lines 53-57 and 142), with the
clock value `t0` the first call stores in `lastTime`. -/
def initialState (t0 : α) : CameraState α :=
  { lastTime := t0
    g_radius := 12.0
    g_azimuth := 0.0
    g_elevation := radians 25.0
    g_enableDiffuseSpec := true
    lastL := GLFW_RELEASE }

/-- The frame sampled at clock value `now` with all seven keys released. -/
def idleFrame (now : α) : Frame α :=
  { now := now
    keyW := GLFW_RELEASE
    keyS := GLFW_RELEASE
    keyA := GLFW_RELEASE
    keyD := GLFW_RELEASE
    keyUp := GLFW_RELEASE
    keyDown := GLFW_RELEASE
    keyL := GLFW_RELEASE }

/-- The number a key state stands for in an update equation: 1 when pressed, 0 when
released. -/
def KeyAction.toScalar (k : KeyAction) : α := if k = GLFW_PRESS then 1 else 0

/-! ## GLM vectors and matrices

GLM stores a `mat4` as four columns; `m[c]` is column `c` and `m[c][r]` its entry
in row `r`. -/

/-- A vector `glm::vec4`. -/
structure Vec4 (α : Type) where
  x : α
  y : α
  z : α
  w : α

/-- A matrix `glm::mat4`, by columns: `c0` is `m[0]`, ..., `c3` is `m[3]`. -/
structure Mat4 (α : Type) where
  c0 : Vec4 α
  c1 : Vec4 α
  c2 : Vec4 α
  c3 : Vec4 α

/-- The sum of two `vec4`. -/
def Vec4.add (u v : Vec4 α) : Vec4 α :=
  { x := u.x + v.x, y := u.y + v.y, z := u.z + v.z, w := u.w + v.w }

/-- A `vec4` times a scalar. -/
def Vec4.scale (u : Vec4 α) (k : α) : Vec4 α :=
  { x := u.x * k, y := u.y * k, z := u.z * k, w := u.w * k }

/-- The conversion `glm::vec4(v, w)`. -/
def Vec4.ofVec3 (v : Vec3 α) (w : α) : Vec4 α := { x := v.x, y := v.y, z := v.z, w := w }

/-- The conversion `glm::vec3(v)` of a `vec4`: its first three components. -/
def Vec4.toVec3 (v : Vec4 α) : Vec3 α := { x := v.x, y := v.y, z := v.z }

/-- The matrix `glm::mat4(1.0f)`: the identity. -/
def Mat4.identity : Mat4 α :=
  { c0 := { x := 1, y := 0, z := 0, w := 0 }
    c1 := { x := 0, y := 1, z := 0, w := 0 }
    c2 := { x := 0, y := 0, z := 1, w := 0 }
    c3 := { x := 0, y := 0, z := 0, w := 1 } }

/-- The product `m * v` of a `mat4` and a `vec4`:
`m[0] * v.x + m[1] * v.y + m[2] * v.z + m[3] * v.w`. -/
def Mat4.mulVec (m : Mat4 α) (v : Vec4 α) : Vec4 α :=
  (((m.c0.scale v.x).add (m.c1.scale v.y)).add (m.c2.scale v.z)).add (m.c3.scale v.w)

/-- The product `m1 * m2` of two `mat4`: column `j` is `m1 * m2[j]`. -/
def Mat4.mul (m1 m2 : Mat4 α) : Mat4 α :=
  { c0 := m1.mulVec m2.c0, c1 := m1.mulVec m2.c1, c2 := m1.mulVec m2.c2, c3 := m1.mulVec m2.c3 }

/-- The function `glm::translate(m, v)`: `m` with
`m[3] = m[0] * v[0] + m[1] * v[1] + m[2] * v[2] + m[3]`. -/
def translate (m : Mat4 α) (v : Vec3 α) : Mat4 α :=
  { c0 := m.c0, c1 := m.c1, c2 := m.c2
    c3 := (((m.c0.scale v.x).add (m.c1.scale v.y)).add (m.c2.scale v.z)).add m.c3 }

/-- The function `glm::normalize(v)` on a `vec3`: `v * inversesqrt(dot(v, v))`. -/
def normalize (v : Vec3 α) : Vec3 α :=
  let k := 1 / MathFns.sqrt (v.x * v.x + v.y * v.y + v.z * v.z)
  { x := v.x * k, y := v.y * k, z := v.z * k }

/-- The function `glm::rotate(m, angle, v)`: `m` times the rotation by `angle` about
the axis `v`, as GLM builds it. -/
def rotate (m : Mat4 α) (angle : α) (v : Vec3 α) : Mat4 α :=
  let c := MathFns.cos angle
  let s := MathFns.sin angle
  let axis := normalize v
  let temp : Vec3 α := { x := (1 - c) * axis.x, y := (1 - c) * axis.y, z := (1 - c) * axis.z }
  let r00 := c + temp.x * axis.x
  let r01 := temp.x * axis.y + s * axis.z
  let r02 := temp.x * axis.z - s * axis.y
  let r10 := temp.y * axis.x - s * axis.z
  let r11 := c + temp.y * axis.y
  let r12 := temp.y * axis.z + s * axis.x
  let r20 := temp.z * axis.x + s * axis.y
  let r21 := temp.z * axis.y - s * axis.x
  let r22 := c + temp.z * axis.z
  { c0 := ((m.c0.scale r00).add (m.c1.scale r01)).add (m.c2.scale r02)
    c1 := ((m.c0.scale r10).add (m.c1.scale r11)).add (m.c2.scale r12)
    c2 := ((m.c0.scale r20).add (m.c1.scale r21)).add (m.c2.scale r22)
    c3 := m.c3 }

/-! ## The scene driver (`tutorial09_several_objects.cpp`) -/

/-- The matrix `Rfix` (line 142): the rotation by `half_pi` about the x-axis. -/
def Rfix : Mat4 α := rotate Mat4.identity half_pi { x := 1, y := 0, z := 0 }

/-- A `float` that may be infinite: the values `minZ` and `liftToGround` take. -/
inductive ExtFloat (α : Type) where
  | negInf
  | finite (x : α)
  | posInf

/-- The comparison `a < b` of two possibly infinite floats. -/
def ExtFloat.lt : ExtFloat α → ExtFloat α → Bool
  | .negInf, .negInf => false
  | .negInf, _ => true
  | .finite _, .negInf => false
  | .finite a, .finite b => decide (a < b)
  | .finite _, .posInf => true
  | .posInf, _ => false

/-- The function `std::min(a, b)`, which is `(b < a) ? b : a`. -/
def stdMin (a b : ExtFloat α) : ExtFloat α := if b.lt a then b else a

/-- The negation of a possibly infinite float. -/
def ExtFloat.neg : ExtFloat α → ExtFloat α
  | .negInf => .posInf
  | .finite a => .finite (-a)
  | .posInf => .negInf

/-- The vector `vt = glm::vec3(Rfix * glm::vec4(v, 1.0f))` of the loop at line 148. -/
def rfixVertex (v : Vec3 α) : Vec3 α := (Rfix.mulVec (Vec4.ofVec3 v 1)).toVec3

/-- The value of `minZ` after the loop over the mesh vertices (lines 145-150):
it starts at `+infinity` and takes `std::min(minZ, vt.z)` at every vertex. -/
def minZ (indexed_vertices : List (Vec3 α)) : ExtFloat α :=
  indexed_vertices.foldl (fun m v => stdMin m (.finite (rfixVertex v).z)) .posInf

/-- The value `liftToGround = -minZ` (line 152). -/
def liftToGround (indexed_vertices : List (Vec3 α)) : ExtFloat α :=
  (minZ indexed_vertices).neg

/-- The constant `r = sqrt(14.0f)` (line 321): the radial distance from the origin. -/
def ringRadius : α := MathFns.sqrt 14.0

/-- The constant `start = -M_PI / 2` (line 322). -/
def ringStart : α := -MathFns.pi / 2

/-- The constant `step = M_PI / 4` (line 323). -/
def ringStep : α := MathFns.pi / 4

/-- The angle `theta = start + i * step` of head `i` (line 328). -/
def theta (i : ℕ) : α := ringStart + (i : α) * ringStep

/-- The coordinate `x = r * std::cos(theta)` of head `i` (line 329). -/
def headX (i : ℕ) : α := ringRadius * MathFns.cos (theta i)

/-- The coordinate `y = r * std::sin(theta)` of head `i` (line 330). -/
def headY (i : ℕ) : α := ringRadius * MathFns.sin (theta i)

/-- The angle `yaw = theta + M_PI / 2` of head `i` (line 331). -/
def yaw (i : ℕ) : α := theta i + MathFns.pi / 2

/-- The model matrix `M` of head `i` (lines 337-340), for a finite `liftToGround`:
the identity, translated onto the ring, rotated by `yaw` about the z-axis, times
`Rfix`.  The loop at line 325 runs `i` over 0, ..., 7. -/
def modelMatrix (lift : α) (i : ℕ) : Mat4 α :=
  let m0 : Mat4 α := Mat4.identity
  let m1 := translate m0 { x := headX i, y := headY i, z := lift }
  let m2 := rotate m1 (yaw i) { x := 0, y := 0, z := 1 }
  m2.mul Rfix

/-! ## The view matrix (`common/controls.cpp`, line 170) -/

/-- The difference `u - v` of two `vec3`. -/
def Vec3.sub (u v : Vec3 α) : Vec3 α := { x := u.x - v.x, y := u.y - v.y, z := u.z - v.z }

/-- The function `glm::dot` on `vec3`. -/
def dot (u v : Vec3 α) : α := u.x * v.x + u.y * v.y + u.z * v.z

/-- The function `glm::cross`. -/
def cross (u v : Vec3 α) : Vec3 α :=
  { x := u.y * v.z - v.y * u.z, y := u.z * v.x - v.z * u.x, z := u.x * v.y - v.x * u.y }

/-- The vector `f = normalize(center - eye)` inside `glm::lookAt`. -/
def lookAtForward (eye center : Vec3 α) : Vec3 α := normalize (center.sub eye)

/-- The vector `cross(f, up)` that `glm::lookAt` normalises to get `s`. -/
def lookAtSide (eye center up : Vec3 α) : Vec3 α := cross (lookAtForward eye center) up

/-- The function `glm::lookAt(eye, center, up)` (right-handed, GLM's default): with
`f = normalize(center - eye)`, `s = normalize(cross(f, up))` and `u = cross(s, f)`, the
rows of the rotation are `s`, `u`, `-f` and the last column is
`(-dot(s, eye), -dot(u, eye), dot(f, eye), 1)`. -/
def lookAt (eye center up : Vec3 α) : Mat4 α :=
  let f := lookAtForward eye center
  let s := normalize (lookAtSide eye center up)
  let u := cross s f
  { c0 := { x := s.x, y := u.x, z := -f.x, w := 0 }
    c1 := { x := s.y, y := u.y, z := -f.y, w := 0 }
    c2 := { x := s.z, y := u.z, z := -f.z, w := 0 }
    c3 := { x := -dot s eye, y := -dot u eye, z := dot f eye, w := 1 } }

/-- The value `ViewMatrix = glm::lookAt(cam, glm::vec3(0.0f), glm::vec3(0,0,1))` that
`computeMatricesFromInputs` stores (line 170), from the state after the clamps. -/
def viewMatrix (s : CameraState α) : Mat4 α :=
  lookAt (cameraPosition s) { x := 0, y := 0, z := 0 } { x := 0, y := 0, z := 1 }

end Defs

open KeyAction

/-! ## Auxiliary lemmas -/

section OrderLemmas

variable {α : Type} [LinearOrderedField α]

theorem glmMax_eq_max (x y : α) : glmMax x y = max x y := by
  unfold glmMax
  split_ifs with h
  · exact (max_eq_right h.le).symm
  · exact (max_eq_left (not_lt.mp h)).symm

theorem toScalar_press : (KeyAction.toScalar GLFW_PRESS : α) = 1 := by
  simp [KeyAction.toScalar]

theorem toScalar_release : (KeyAction.toScalar GLFW_RELEASE : α) = 0 := by
  simp [KeyAction.toScalar]

/-- The two `if` statements that bound the elevation (lines 153-161) compute a clamp
whenever the bound is not negative. -/
theorem elevation_ifs_eq_clamp (m e : α) (hm : 0 ≤ m) :
    (if (if e > m then m else e) < -m then -m else (if e > m then m else e))
      = min (max e (-m)) m := by
  by_cases h1 : e > m
  · have h2 : ¬ m < -m := by linarith
    have h3 : max e (-m) = e := max_eq_left (by linarith)
    simp only [h1, if_true, h2, if_false, h3]
    exact (min_eq_right h1.le).symm
  · have h1le : e ≤ m := not_lt.mp h1
    simp only [h1, if_false]
    by_cases h2 : e < -m
    · simp only [h2, if_true]
      rw [max_eq_right h2.le, min_eq_left (by linarith)]
    · simp only [h2, if_false]
      rw [max_eq_left (not_lt.mp h2), min_eq_left h1le]

end OrderLemmas

section Lemmas

variable {α : Type} [LinearOrderedField α] [MathFns α]

theorem runFrames_nil (s : CameraState α) : runFrames [] s = s := rfl

theorem runFrames_cons (f : Frame α) (fs : List (Frame α)) (s : CameraState α) :
    runFrames (f :: fs) s = runFrames fs (computeMatricesFromInputs f s) := rfl

theorem runFrames_append (fs gs : List (Frame α)) (s : CameraState α) :
    runFrames (fs ++ gs) s = runFrames gs (runFrames fs s) := by
  simp [runFrames, List.foldl_append]

theorem step_radius (f : Frame α) (s : CameraState α) :
    (computeMatricesFromInputs f s).g_radius
      = max (s.g_radius - kZoomSpeed * (f.now - s.lastTime) * f.keyW.toScalar
          + kZoomSpeed * (f.now - s.lastTime) * f.keyS.toScalar) 2.0 := by
  simp only [computeMatricesFromInputs, glmMax_eq_max, KeyAction.toScalar]
  split_ifs <;> simp

theorem step_azimuth (f : Frame α) (s : CameraState α) :
    (computeMatricesFromInputs f s).g_azimuth
      = s.g_azimuth - kAngSpeed * (f.now - s.lastTime) * f.keyA.toScalar
          + kAngSpeed * (f.now - s.lastTime) * f.keyD.toScalar := by
  simp only [computeMatricesFromInputs, KeyAction.toScalar]
  split_ifs <;> simp

theorem step_elevation_ifs (f : Frame α) (s : CameraState α) :
    (computeMatricesFromInputs f s).g_elevation
      = (fun e : α => if (if e > maxEl then maxEl else e) < -maxEl then -maxEl
            else (if e > maxEl then maxEl else e))
          (s.g_elevation + kAngSpeed * (f.now - s.lastTime) * f.keyUp.toScalar
            - kAngSpeed * (f.now - s.lastTime) * f.keyDown.toScalar) := by
  cases hU : f.keyUp <;> cases hD : f.keyDown <;>
    simp [computeMatricesFromInputs, KeyAction.toScalar, hU, hD]

theorem step_lastL (f : Frame α) (s : CameraState α) :
    (computeMatricesFromInputs f s).lastL = f.keyL := rfl

theorem step_enable (f : Frame α) (s : CameraState α) :
    (computeMatricesFromInputs f s).g_enableDiffuseSpec
      = if f.keyL = GLFW_PRESS ∧ s.lastL = GLFW_RELEASE then !s.g_enableDiffuseSpec
        else s.g_enableDiffuseSpec := rfl

end Lemmas

theorem pi_real : (MathFns.pi : ℝ) = Real.pi := rfl

theorem cos_real (x : ℝ) : MathFns.cos x = Real.cos x := rfl

theorem sin_real (x : ℝ) : MathFns.sin x = Real.sin x := rfl

theorem sqrt_real (x : ℝ) : MathFns.sqrt x = Real.sqrt x := rfl

theorem radians_real (d : ℝ) : radians d = d * (Real.pi / 180) := rfl

theorem maxEl_real : (maxEl : ℝ) = radians 89.9 := rfl

theorem radians_nonneg {d : ℝ} (hd : 0 ≤ d) : 0 ≤ radians d := by
  rw [radians_real]
  have := Real.pi_pos
  positivity

theorem step_elevation (f : Frame ℝ) (s : CameraState ℝ) :
    (computeMatricesFromInputs f s).g_elevation
      = min (max (s.g_elevation + kAngSpeed * (f.now - s.lastTime) * f.keyUp.toScalar
            - kAngSpeed * (f.now - s.lastTime) * f.keyDown.toScalar) (-radians 89.9))
          (radians 89.9) := by
  rw [step_elevation_ifs]
  exact elevation_ifs_eq_clamp _ _ (radians_nonneg (by norm_num))

theorem step_invariant (f : Frame ℝ) (s : CameraState ℝ) :
    2.0 ≤ (computeMatricesFromInputs f s).g_radius ∧
      -radians 89.9 ≤ (computeMatricesFromInputs f s).g_elevation ∧
      (computeMatricesFromInputs f s).g_elevation ≤ radians 89.9 := by
  have hm : (0 : ℝ) ≤ radians 89.9 := radians_nonneg (by norm_num)
  refine ⟨?_, ?_, ?_⟩
  · rw [step_radius]
    exact le_max_right _ _
  · rw [step_elevation]
    exact le_min (le_max_right _ _) (by linarith)
  · rw [step_elevation]
    exact min_le_right _ _

/-- While the remembered sample of the L key is "pressed" and the key stays pressed, the
flag does not change. -/
theorem runFrames_held (fs : List (Frame ℝ)) (s : CameraState ℝ)
    (hlast : s.lastL = GLFW_PRESS) (hpressed : ∀ f ∈ fs, f.keyL = GLFW_PRESS) :
    (runFrames fs s).g_enableDiffuseSpec = s.g_enableDiffuseSpec := by
  induction fs generalizing s with
  | nil => rfl
  | cons f fs ih =>
    rw [runFrames_cons, ih _ (by rw [step_lastL]; exact hpressed f (List.mem_cons_self _ _))
      (fun g hg => hpressed g (List.mem_cons_of_mem _ hg)), step_enable]
    simp [hlast]

/-! ## The camera claims -/

/-- C1: after one call of `computeMatricesFromInputs`, from any state, with any keys and
any clock sample, the radius is at least 2.0 and the elevation lies between
`-radians(89.9)` and `radians(89.9)`; so the same holds after the last call of every
non-empty sequence of calls. -/
theorem camera_invariant_after_every_call (fs : List (Frame ℝ)) (f : Frame ℝ)
    (s : CameraState ℝ) :
    (2.0 ≤ (computeMatricesFromInputs f s).g_radius ∧
      -radians 89.9 ≤ (computeMatricesFromInputs f s).g_elevation ∧
      (computeMatricesFromInputs f s).g_elevation ≤ radians 89.9) ∧
    (2.0 ≤ (runFrames (fs ++ [f]) s).g_radius ∧
      -radians 89.9 ≤ (runFrames (fs ++ [f]) s).g_elevation ∧
      (runFrames (fs ++ [f]) s).g_elevation ≤ radians 89.9) := by
  refine ⟨step_invariant f s, ?_⟩
  rw [runFrames_append]
  exact step_invariant f (runFrames fs s)

/-- C2: from a state whose remembered L sample is "released", calls that all sample the
L key as pressed flip `g_enableDiffuseSpec` on the first call only: after each of the
calls 1..n the flag is the negation of the initial flag, whatever the other keys and the
clock samples are. -/
theorem lighting_toggle_edge_triggered (fs : List (Frame ℝ)) (s : CameraState ℝ)
    (hlast : s.lastL = GLFW_RELEASE) (hpressed : ∀ f ∈ fs, f.keyL = GLFW_PRESS)
    (k : ℕ) (hk1 : 1 ≤ k) (hkn : k ≤ fs.length) :
    (runFrames (fs.take k) s).g_enableDiffuseSpec = !s.g_enableDiffuseSpec := by
  cases fs with
  | nil => simp at hkn; omega
  | cons f fs =>
    obtain ⟨j, rfl⟩ : ∃ j, k = j + 1 := ⟨k - 1, by omega⟩
    rw [List.take_succ_cons, runFrames_cons]
    have hf : f.keyL = GLFW_PRESS := hpressed f (List.mem_cons_self _ _)
    rw [runFrames_held _ _ (by rw [step_lastL]; exact hf)
      (fun g hg => hpressed g (List.mem_cons_of_mem _ (List.mem_of_mem_take hg))), step_enable]
    simp [hf, hlast]

/-- Witness of C2: three frames with L held, from the initial state. -/
theorem lighting_toggle_edge_triggered_witness :
    (runFrames
        (List.take 3 [{ idleFrame 1 with keyL := GLFW_PRESS },
          { idleFrame 2 with keyL := GLFW_PRESS }, { idleFrame 3 with keyL := GLFW_PRESS }])
        (initialState (0 : ℝ))).g_enableDiffuseSpec
      = !(initialState (0 : ℝ)).g_enableDiffuseSpec :=
  lighting_toggle_edge_triggered _ (initialState 0) rfl (by simp [idleFrame]) 3 (by decide)
    (by simp)

/-- C3: from a state with radius at least 2.0 and elevation within
`[-radians(89.9), radians(89.9)]`, a call with W, S, A, D, Up and Down released leaves
radius, azimuth and elevation unchanged, whatever the clock sample and the L key are; the
camera position computed after the call is the one computed from the state before. -/
theorem no_input_keeps_camera (f : Frame ℝ) (s : CameraState ℝ)
    (hr : 2.0 ≤ s.g_radius) (hlo : -radians 89.9 ≤ s.g_elevation)
    (hhi : s.g_elevation ≤ radians 89.9)
    (hW : f.keyW = GLFW_RELEASE) (hS : f.keyS = GLFW_RELEASE)
    (hA : f.keyA = GLFW_RELEASE) (hD : f.keyD = GLFW_RELEASE)
    (hUp : f.keyUp = GLFW_RELEASE) (hDown : f.keyDown = GLFW_RELEASE) :
    (computeMatricesFromInputs f s).g_radius = s.g_radius ∧
      (computeMatricesFromInputs f s).g_azimuth = s.g_azimuth ∧
      (computeMatricesFromInputs f s).g_elevation = s.g_elevation ∧
      cameraPosition (computeMatricesFromInputs f s) = cameraPosition s := by
  have h1 : (computeMatricesFromInputs f s).g_radius = s.g_radius := by
    rw [step_radius, hW, hS, toScalar_release]
    simpa using hr
  have h2 : (computeMatricesFromInputs f s).g_azimuth = s.g_azimuth := by
    rw [step_azimuth, hA, hD, toScalar_release]
    simp
  have h3 : (computeMatricesFromInputs f s).g_elevation = s.g_elevation := by
    rw [step_elevation, hUp, hDown, toScalar_release]
    simp only [mul_zero, add_zero, sub_zero]
    rw [max_eq_left hlo, min_eq_left hhi]
  refine ⟨h1, h2, h3, ?_⟩
  simp only [cameraPosition, h1, h2, h3]

/-- Witness of C3: the initial state, five seconds later, with only L pressed. -/
theorem no_input_keeps_camera_witness :
    (computeMatricesFromInputs { idleFrame 5 with keyL := GLFW_PRESS }
        (initialState (0 : ℝ))).g_radius = 12.0 ∧
      (computeMatricesFromInputs { idleFrame 5 with keyL := GLFW_PRESS }
        (initialState (0 : ℝ))).g_azimuth = 0.0 ∧
      (computeMatricesFromInputs { idleFrame 5 with keyL := GLFW_PRESS }
        (initialState (0 : ℝ))).g_elevation = radians 25.0 ∧
      cameraPosition (computeMatricesFromInputs { idleFrame 5 with keyL := GLFW_PRESS }
        (initialState (0 : ℝ))) = cameraPosition (initialState (0 : ℝ)) :=
  no_input_keeps_camera { idleFrame 5 with keyL := GLFW_PRESS } (initialState 0)
    (by norm_num [initialState])
    (by
      have := Real.pi_pos
      simp only [initialState, radians_real]
      linarith)
    (by
      have := Real.pi_pos
      simp only [initialState, radians_real]
      linarith)
    rfl rfl rfl rfl rfl rfl

/-- C4: the radius after one call is `max(r - 6.0*dt*in + 6.0*dt*out, 2.0)`, with `dt` the
time since the previous call and `in`, `out` the states of W and S as 0 or 1: the floor
is applied once, after both deltas.  From r=12 with W alone and dt=1 the radius is 6; from
r=3 with S alone and dt=1 it is 9; from r=2 with both keys and dt=1 it is 2, where a
clamp after each key would give 8. -/
theorem radius_update_clamped_once :
    (∀ (f : Frame ℝ) (s : CameraState ℝ),
      (computeMatricesFromInputs f s).g_radius
        = max (s.g_radius - 6.0 * (f.now - s.lastTime) * f.keyW.toScalar
            + 6.0 * (f.now - s.lastTime) * f.keyS.toScalar) 2.0) ∧
    (computeMatricesFromInputs { idleFrame 1 with keyW := GLFW_PRESS }
        (initialState (0 : ℝ))).g_radius = 6.0 ∧
    (computeMatricesFromInputs { idleFrame 1 with keyS := GLFW_PRESS }
        { initialState (0 : ℝ) with g_radius := 3.0 }).g_radius = 9.0 ∧
    (computeMatricesFromInputs { idleFrame 1 with keyW := GLFW_PRESS, keyS := GLFW_PRESS }
        { initialState (0 : ℝ) with g_radius := 2.0 }).g_radius = 2.0 ∧
    max (max ((2.0 : ℝ) - 6.0 * 1) 2.0 + 6.0 * 1) 2.0 = 8.0 := by
  refine ⟨fun f s => step_radius f s, ?_, ?_, ?_, ?_⟩
  · rw [step_radius]
    norm_num [kZoomSpeed, toScalar_press, toScalar_release, idleFrame, initialState]
  · rw [step_radius]
    norm_num [kZoomSpeed, toScalar_press, toScalar_release, idleFrame, initialState]
  · rw [step_radius]
    norm_num [kZoomSpeed, toScalar_press, toScalar_release, idleFrame, initialState]
  · norm_num

/-- C5: the elevation after one call is
`clamp(e + 1.8*dt*up - 1.8*dt*down, -radians(89.9), radians(89.9))`, with `up`, `down` the
states of the Up and Down keys as 0 or 1; from elevation `radians(89.0)`, with Up alone
and a delta `1.8*dt` of at least `radians(0.9)`, it is exactly `radians(89.9)`. -/
theorem elevation_update_clamped (f : Frame ℝ) (s : CameraState ℝ) :
    (computeMatricesFromInputs f s).g_elevation
        = min (max (s.g_elevation + 1.8 * (f.now - s.lastTime) * f.keyUp.toScalar
              - 1.8 * (f.now - s.lastTime) * f.keyDown.toScalar) (-radians 89.9))
            (radians 89.9) ∧
    (s.g_elevation = radians 89.0 → f.keyUp = GLFW_PRESS → f.keyDown = GLFW_RELEASE →
      radians 0.9 ≤ 1.8 * (f.now - s.lastTime) →
      (computeMatricesFromInputs f s).g_elevation = radians 89.9) := by
  refine ⟨step_elevation f s, fun he hUp hDown hdt => ?_⟩
  rw [step_elevation, hUp, hDown, toScalar_press, toScalar_release, he]
  have hpi := Real.pi_pos
  simp only [radians_real, kAngSpeed] at hdt ⊢
  rw [min_eq_right]
  refine le_max_of_le_left ?_
  linarith

/-- Witness of C5: from elevation `radians(89.0)` with the Up key alone, one second
(a delta of 1.8 rad) and the time that gives a delta of two degrees both end at
`radians(89.9)`. -/
theorem elevation_update_clamped_witness :
    (computeMatricesFromInputs { idleFrame 1 with keyUp := GLFW_PRESS }
        { initialState (0 : ℝ) with g_elevation := radians 89.0 }).g_elevation
      = radians 89.9 ∧
    (computeMatricesFromInputs { idleFrame (radians 2.0 / 1.8) with keyUp := GLFW_PRESS }
        { initialState (0 : ℝ) with g_elevation := radians 89.0 }).g_elevation
      = radians 89.9 :=
  ⟨(elevation_update_clamped { idleFrame 1 with keyUp := GLFW_PRESS }
      { initialState (0 : ℝ) with g_elevation := radians 89.0 }).2 rfl rfl rfl (by
        have := Real.pi_le_four
        simp only [radians_real, idleFrame, initialState]
        linarith),
   (elevation_update_clamped { idleFrame (radians 2.0 / 1.8) with keyUp := GLFW_PRESS }
      { initialState (0 : ℝ) with g_elevation := radians 89.0 }).2 rfl rfl rfl (by
        have := Real.pi_pos
        simp only [radians_real, idleFrame, initialState]
        rw [show (1.8 : ℝ) * (2.0 * (Real.pi / 180) / 1.8 - 0) = 2.0 * (Real.pi / 180) by ring]
        linarith)⟩

/-- C6: the azimuth after one call is `a - 1.8*dt*left + 1.8*dt*right`, with `left`,
`right` the states of A and D as 0 or 1, and nothing clamps or wraps it.  With A alone it
is `a - 1.8*dt`, not above `a` when `dt >= 0`; with D alone it is `a + 1.8*dt`, not below
`a` when `dt >= 0`. -/
theorem azimuth_update_unclamped (f : Frame ℝ) (s : CameraState ℝ) :
    (computeMatricesFromInputs f s).g_azimuth
        = s.g_azimuth - 1.8 * (f.now - s.lastTime) * f.keyA.toScalar
            + 1.8 * (f.now - s.lastTime) * f.keyD.toScalar ∧
    (f.keyA = GLFW_PRESS → f.keyD = GLFW_RELEASE →
      (computeMatricesFromInputs f s).g_azimuth = s.g_azimuth - 1.8 * (f.now - s.lastTime) ∧
      (0 ≤ f.now - s.lastTime → (computeMatricesFromInputs f s).g_azimuth ≤ s.g_azimuth) ∧
      (0 < f.now - s.lastTime → (computeMatricesFromInputs f s).g_azimuth < s.g_azimuth)) ∧
    (f.keyA = GLFW_RELEASE → f.keyD = GLFW_PRESS →
      (computeMatricesFromInputs f s).g_azimuth = s.g_azimuth + 1.8 * (f.now - s.lastTime) ∧
      (0 ≤ f.now - s.lastTime → s.g_azimuth ≤ (computeMatricesFromInputs f s).g_azimuth) ∧
      (0 < f.now - s.lastTime → s.g_azimuth < (computeMatricesFromInputs f s).g_azimuth)) := by
  refine ⟨step_azimuth f s, fun hA hD => ?_, fun hA hD => ?_⟩
  · have h : (computeMatricesFromInputs f s).g_azimuth
        = s.g_azimuth - 1.8 * (f.now - s.lastTime) := by
      rw [step_azimuth, hA, hD, toScalar_press, toScalar_release, kAngSpeed]
      ring
    rw [h]
    exact ⟨rfl, fun hdt => by linarith, fun hdt => by linarith⟩
  · have h : (computeMatricesFromInputs f s).g_azimuth
        = s.g_azimuth + 1.8 * (f.now - s.lastTime) := by
      rw [step_azimuth, hA, hD, toScalar_press, toScalar_release, kAngSpeed]
      ring
    rw [h]
    exact ⟨rfl, fun hdt => by linarith, fun hdt => by linarith⟩

/-- Witness of C6: from azimuth 1000, far outside one turn, one second of A alone gives
998.2 and one second of D alone gives 1001.8. -/
theorem azimuth_update_unclamped_witness :
    (computeMatricesFromInputs { idleFrame 1 with keyA := GLFW_PRESS }
        { initialState (0 : ℝ) with g_azimuth := 1000 }).g_azimuth = 998.2 ∧
    (computeMatricesFromInputs { idleFrame 1 with keyD := GLFW_PRESS }
        { initialState (0 : ℝ) with g_azimuth := 1000 }).g_azimuth = 1001.8 := by
  have hA := ((azimuth_update_unclamped { idleFrame 1 with keyA := GLFW_PRESS }
    { initialState (0 : ℝ) with g_azimuth := 1000 }).2.1 rfl rfl).1
  have hD := ((azimuth_update_unclamped { idleFrame 1 with keyD := GLFW_PRESS }
    { initialState (0 : ℝ) with g_azimuth := 1000 }).2.2 rfl rfl).1
  constructor
  · rw [hA]
    norm_num [idleFrame, initialState]
  · rw [hD]
    norm_num [idleFrame, initialState]

/-- C9 as stated fails: from the initial state (azimuth 0), after one second with the A
key pressed alone the azimuth has not increased and is not `0 + 1.8*1`, and after one
second with the D key pressed alone it has not decreased and is not `0 - 1.8*1`. -/
theorem key_bindings_as_documented_counterexample :
    ¬ ((initialState (0 : ℝ)).g_azimuth
        < (computeMatricesFromInputs { idleFrame 1 with keyA := GLFW_PRESS }
            (initialState (0 : ℝ))).g_azimuth) ∧
    (computeMatricesFromInputs { idleFrame 1 with keyA := GLFW_PRESS }
        (initialState (0 : ℝ))).g_azimuth
      ≠ (initialState (0 : ℝ)).g_azimuth + 1.8 * (1 - 0) ∧
    ¬ ((computeMatricesFromInputs { idleFrame 1 with keyD := GLFW_PRESS }
        (initialState (0 : ℝ))).g_azimuth < (initialState (0 : ℝ)).g_azimuth) ∧
    (computeMatricesFromInputs { idleFrame 1 with keyD := GLFW_PRESS }
        (initialState (0 : ℝ))).g_azimuth
      ≠ (initialState (0 : ℝ)).g_azimuth - 1.8 * (1 - 0) := by
  refine ⟨?_, ?_, ?_, ?_⟩ <;> rw [step_azimuth] <;>
    norm_num [kAngSpeed, toScalar_press, toScalar_release, idleFrame, initialState]

/-- C9 as amended: with the A key pressed alone for an elapsed time `dt > 0` the azimuth
decreases by `1.8*dt`, and with the D key pressed alone it increases by `1.8*dt`. -/
theorem key_bindings_azimuth (f : Frame ℝ) (s : CameraState ℝ)
    (hdt : 0 < f.now - s.lastTime) :
    (f.keyA = GLFW_PRESS → f.keyD = GLFW_RELEASE →
      (computeMatricesFromInputs f s).g_azimuth = s.g_azimuth - 1.8 * (f.now - s.lastTime) ∧
      (computeMatricesFromInputs f s).g_azimuth < s.g_azimuth) ∧
    (f.keyA = GLFW_RELEASE → f.keyD = GLFW_PRESS →
      (computeMatricesFromInputs f s).g_azimuth = s.g_azimuth + 1.8 * (f.now - s.lastTime) ∧
      s.g_azimuth < (computeMatricesFromInputs f s).g_azimuth) := by
  constructor
  · intro hA hD
    have h : (computeMatricesFromInputs f s).g_azimuth
        = s.g_azimuth - 1.8 * (f.now - s.lastTime) := by
      rw [step_azimuth, hA, hD, toScalar_press, toScalar_release, kAngSpeed]
      ring
    exact ⟨h, by rw [h]; linarith⟩
  · intro hA hD
    have h : (computeMatricesFromInputs f s).g_azimuth
        = s.g_azimuth + 1.8 * (f.now - s.lastTime) := by
      rw [step_azimuth, hA, hD, toScalar_press, toScalar_release, kAngSpeed]
      ring
    exact ⟨h, by rw [h]; linarith⟩

/-- Witness of C9 as amended: from the initial state (azimuth 0), one second of A alone
gives azimuth -1.8 and one second of D alone gives +1.8. -/
theorem key_bindings_azimuth_witness :
    (computeMatricesFromInputs { idleFrame 1 with keyA := GLFW_PRESS }
        (initialState (0 : ℝ))).g_azimuth = -1.8 ∧
    (computeMatricesFromInputs { idleFrame 1 with keyD := GLFW_PRESS }
        (initialState (0 : ℝ))).g_azimuth = 1.8 := by
  have hA := ((key_bindings_azimuth { idleFrame 1 with keyA := GLFW_PRESS }
    (initialState (0 : ℝ)) (by norm_num [idleFrame, initialState])).1 rfl rfl).1
  have hD := ((key_bindings_azimuth { idleFrame 1 with keyD := GLFW_PRESS }
    (initialState (0 : ℝ)) (by norm_num [idleFrame, initialState])).2 rfl rfl).1
  constructor
  · rw [hA]
    norm_num [idleFrame, initialState]
  · rw [hD]
    norm_num [idleFrame, initialState]

/-! ## Lemmas on the matrices and the vertex loop -/

theorem Rfix_real : (Rfix : Mat4 ℝ)
    = { c0 := { x := 1, y := 0, z := 0, w := 0 }
        c1 := { x := 0, y := 0, z := 1, w := 0 }
        c2 := { x := 0, y := -1, z := 0, w := 0 }
        c3 := { x := 0, y := 0, z := 0, w := 1 } } := by
  simp [Rfix, rotate, normalize, half_pi, Mat4.identity, Vec4.scale, Vec4.add, pi_real, cos_real,
    sin_real, sqrt_real]

theorem rfixVertex_real (v : Vec3 ℝ) : rfixVertex v = { x := v.x, y := -v.z, z := v.y } := by
  simp [rfixVertex, Rfix_real, Mat4.mulVec, Vec4.scale, Vec4.add, Vec4.ofVec3, Vec4.toVec3]

theorem modelMatrix_real (lift : ℝ) (i : ℕ) : modelMatrix lift i
    = { c0 := { x := Real.cos (yaw i), y := Real.sin (yaw i), z := 0, w := 0 }
        c1 := { x := 0, y := 0, z := 1, w := 0 }
        c2 := { x := Real.sin (yaw i), y := -Real.cos (yaw i), z := 0, w := 0 }
        c3 := { x := headX i, y := headY i, z := lift, w := 1 } } := by
  simp [modelMatrix, Rfix_real, translate, rotate, normalize, Mat4.mul, Mat4.mulVec, Mat4.identity,
    Vec4.scale, Vec4.add, cos_real, sin_real, sqrt_real]

theorem theta_real (i : ℕ) : (theta i : ℝ) = -Real.pi / 2 + (i : ℝ) * (Real.pi / 4) := rfl

theorem yaw_real (i : ℕ) : (yaw i : ℝ) = theta i + Real.pi / 2 := rfl

theorem cos_yaw (i : ℕ) : Real.cos (yaw i) = -Real.sin (theta i) := by
  rw [yaw_real, Real.cos_add_pi_div_two]

theorem sin_yaw (i : ℕ) : Real.sin (yaw i) = Real.cos (theta i) := by
  rw [yaw_real, Real.sin_add_pi_div_two]

theorem ringRadius_real : (ringRadius : ℝ) = Real.sqrt 14 := by
  rw [ringRadius, sqrt_real]
  norm_num

theorem ringRadius_pos : (0 : ℝ) < Real.sqrt 14 := Real.sqrt_pos.mpr (by norm_num)

theorem ringRadius_sq : Real.sqrt 14 * Real.sqrt 14 = 14 := Real.mul_self_sqrt (by norm_num)

section Fold

variable {α : Type} [LinearOrderedField α]

theorem stdMin_finite (a b : α) :
    stdMin (ExtFloat.finite a) (ExtFloat.finite b) = ExtFloat.finite (min a b) := by
  unfold stdMin ExtFloat.lt
  by_cases h : b < a
  · simp [h, min_eq_right h.le]
  · simp [h, min_eq_left (not_lt.mp h)]

theorem stdMin_posInf (b : α) :
    stdMin ExtFloat.posInf (ExtFloat.finite b) = ExtFloat.finite b := by
  simp [stdMin, ExtFloat.lt]

variable [MathFns α]

/-- The loop over the vertices from a finite `minZ`. -/
theorem foldl_stdMin_finite (vs : List (Vec3 α)) (a : α) :
    ∃ m : α, vs.foldl (fun m v => stdMin m (.finite (rfixVertex v).z)) (.finite a) = .finite m ∧
      m ≤ a ∧ (∀ v ∈ vs, m ≤ (rfixVertex v).z) ∧ (m = a ∨ ∃ v ∈ vs, m = (rfixVertex v).z) := by
  induction vs generalizing a with
  | nil => exact ⟨a, rfl, le_rfl, by simp, Or.inl rfl⟩
  | cons v vs ih =>
    obtain ⟨m, hm, hle, hall, hatt⟩ := ih (min a (rfixVertex v).z)
    refine ⟨m, ?_, hle.trans (min_le_left _ _), ?_, ?_⟩
    · rw [List.foldl_cons, stdMin_finite]
      exact hm
    · intro u hu
      rcases List.mem_cons.mp hu with rfl | hu
      · exact hle.trans (min_le_right _ _)
      · exact hall u hu
    · rcases hatt with h | ⟨u, hu, h⟩
      · rcases min_choice a (rfixVertex v).z with h2 | h2
        · exact Or.inl (h.trans h2)
        · exact Or.inr ⟨v, List.mem_cons_self _ _, h.trans h2⟩
      · exact Or.inr ⟨u, List.mem_cons_of_mem _ hu, h⟩

/-- The value of `minZ` on a non-empty mesh is finite, a lower bound of the rotated
z-coordinates, and attained. -/
theorem minZ_spec (vs : List (Vec3 α)) (hne : vs ≠ []) :
    ∃ m : α, minZ vs = .finite m ∧ (∀ v ∈ vs, m ≤ (rfixVertex v).z) ∧
      ∃ v ∈ vs, m = (rfixVertex v).z := by
  cases vs with
  | nil => exact absurd rfl hne
  | cons v vs =>
    obtain ⟨m, hm, hle, hall, hatt⟩ := foldl_stdMin_finite vs (rfixVertex v).z
    refine ⟨m, ?_, ?_, ?_⟩
    · rw [minZ, List.foldl_cons, stdMin_posInf]
      exact hm
    · intro u hu
      rcases List.mem_cons.mp hu with rfl | hu
      · exact hle
      · exact hall u hu
    · rcases hatt with h | ⟨u, hu, h⟩
      · exact ⟨v, List.mem_cons_self _ _, h⟩
      · exact ⟨u, List.mem_cons_of_mem _ hu, h⟩

end Fold

/-! ## The placement claims -/

/-- C7: the translation column of the model matrix of head `i` is `(x_i, y_i, lift, 1)`
with `x_i = sqrt(14)*cos(theta_i)`, `y_i = sqrt(14)*sin(theta_i)` and
`theta_i = -pi/2 + i*(2*pi/8)`; so `x_i^2 + y_i^2 = 14`, consecutive angles differ by
45 degrees, and head 0 is at `(0, -sqrt(14))`. -/
theorem ring_placement (lift : ℝ) (i : Fin 8) :
    (modelMatrix lift i).c3 = { x := headX i, y := headY i, z := lift, w := 1 } ∧
    headX i = Real.sqrt 14 * Real.cos (-Real.pi / 2 + (i : ℝ) * (2 * Real.pi / 8)) ∧
    headY i = Real.sqrt 14 * Real.sin (-Real.pi / 2 + (i : ℝ) * (2 * Real.pi / 8)) ∧
    (headX i : ℝ) ^ 2 + (headY i : ℝ) ^ 2 = 14 ∧
    (∀ n : ℕ, (theta (n + 1) : ℝ) - theta n = radians 45.0) ∧
    (headX 0 : ℝ) = 0 ∧ (headY 0 : ℝ) = -Real.sqrt 14 := by
  have hθ : (theta i : ℝ) = -Real.pi / 2 + (i : ℝ) * (2 * Real.pi / 8) := by
    rw [theta_real]
    ring
  refine ⟨by rw [modelMatrix_real], ?_, ?_, ?_, ?_, ?_, ?_⟩
  · rw [headX, ringRadius_real, cos_real, hθ]
  · rw [headY, ringRadius_real, sin_real, hθ]
  · rw [headX, headY, ringRadius_real, cos_real, sin_real]
    have h1 := Real.sin_sq_add_cos_sq (theta i)
    have h2 := ringRadius_sq
    nlinarith [h1, h2]
  · intro n
    rw [theta_real, theta_real, radians_real]
    push_cast
    ring
  · rw [headX, cos_real, theta_real]
    simp [neg_div]
  · rw [headY, ringRadius_real, sin_real, theta_real]
    simp [neg_div]

/-- The height of a vertex under the model matrix of head `i`: its rotated
z-coordinate plus the lift. -/
theorem modelMatrix_z (lift : ℝ) (i : ℕ) (v : Vec3 ℝ) :
    ((modelMatrix lift i).mulVec (Vec4.ofVec3 v 1)).z = (rfixVertex v).z + lift := by
  simp [modelMatrix_real, rfixVertex_real, Mat4.mulVec, Vec4.scale, Vec4.add, Vec4.ofVec3]

/-- C8: for a non-empty mesh, `liftToGround` is finite and is the negative of the
minimum over the vertices of the z-coordinate of `Rfix * v`, which is the vertex's own
y; under the model matrix of each of the eight heads a vertex has height
`(Rfix * v).z + liftToGround`, so every vertex is at height at least 0 and some vertex
is at height exactly 0. -/
theorem chin_rests_on_ground (indexed_vertices : List (Vec3 ℝ))
    (hne : indexed_vertices ≠ []) :
    (∀ v : Vec3 ℝ, (rfixVertex v).z = v.y) ∧
    ∃ lift : ℝ, liftToGround indexed_vertices = ExtFloat.finite lift ∧
      (∃ v ∈ indexed_vertices, (rfixVertex v).z = -lift) ∧
      (∀ v ∈ indexed_vertices, -lift ≤ (rfixVertex v).z) ∧
      ∀ i : Fin 8,
        (∀ v : Vec3 ℝ, ((modelMatrix lift i).mulVec (Vec4.ofVec3 v 1)).z
          = (rfixVertex v).z + lift) ∧
        (∀ v ∈ indexed_vertices, 0 ≤ ((modelMatrix lift i).mulVec (Vec4.ofVec3 v 1)).z) ∧
        (∃ v ∈ indexed_vertices, ((modelMatrix lift i).mulVec (Vec4.ofVec3 v 1)).z = 0) := by
  refine ⟨fun v => by rw [rfixVertex_real], ?_⟩
  obtain ⟨m, hm, hlow, u, hu, hatt⟩ := minZ_spec indexed_vertices hne
  refine ⟨-m, by rw [liftToGround, hm, ExtFloat.neg], ⟨u, hu, by rw [neg_neg, hatt]⟩,
    fun v hv => by rw [neg_neg]; exact hlow v hv, fun i => ⟨fun v => modelMatrix_z _ _ v, ?_, ?_⟩⟩
  · intro v hv
    rw [modelMatrix_z]
    linarith [hlow v hv]
  · refine ⟨u, hu, ?_⟩
    rw [modelMatrix_z, ← hatt]
    ring

/-- Witness of C8: a mesh of three vertices whose lowest y is -1. -/
theorem chin_rests_on_ground_witness :
    (∀ v : Vec3 ℝ, (rfixVertex v).z = v.y) ∧
    ∃ lift : ℝ,
      liftToGround [({ x := 0, y := 2, z := 1 } : Vec3 ℝ), { x := 3, y := -1, z := 0 },
        { x := -2, y := 0, z := 5 }] = ExtFloat.finite lift ∧
      (∃ v ∈ [({ x := 0, y := 2, z := 1 } : Vec3 ℝ), { x := 3, y := -1, z := 0 },
        { x := -2, y := 0, z := 5 }], (rfixVertex v).z = -lift) ∧
      (∀ v ∈ [({ x := 0, y := 2, z := 1 } : Vec3 ℝ), { x := 3, y := -1, z := 0 },
        { x := -2, y := 0, z := 5 }], -lift ≤ (rfixVertex v).z) ∧
      ∀ i : Fin 8,
        (∀ v : Vec3 ℝ, ((modelMatrix lift i).mulVec (Vec4.ofVec3 v 1)).z
          = (rfixVertex v).z + lift) ∧
        (∀ v ∈ [({ x := 0, y := 2, z := 1 } : Vec3 ℝ), { x := 3, y := -1, z := 0 },
          { x := -2, y := 0, z := 5 }],
          0 ≤ ((modelMatrix lift i).mulVec (Vec4.ofVec3 v 1)).z) ∧
        (∃ v ∈ [({ x := 0, y := 2, z := 1 } : Vec3 ℝ), { x := 3, y := -1, z := 0 },
          { x := -2, y := 0, z := 5 }],
          ((modelMatrix lift i).mulVec (Vec4.ofVec3 v 1)).z = 0) :=
  chin_rests_on_ground _ (by simp)

/-- C10: with `yaw_i = theta_i + pi/2`, the model matrix of head `i` maps the mesh
direction (0,0,1) to the unit outward radial direction
`(cos(theta_i), sin(theta_i), 0) = (x_i, y_i, 0)/sqrt(14)` and the mesh direction
(0,1,0) to the world up direction (0,0,1). -/
theorem heads_face_outward_upright (lift : ℝ) (i : Fin 8) :
    (yaw i : ℝ) = theta i + Real.pi / 2 ∧
    (modelMatrix lift i).mulVec { x := 0, y := 0, z := 1, w := 0 }
      = { x := Real.cos (theta i), y := Real.sin (theta i), z := 0, w := 0 } ∧
    Real.cos (theta i) = headX i / Real.sqrt 14 ∧
    Real.sin (theta i) = headY i / Real.sqrt 14 ∧
    Real.cos (theta i) ^ 2 + Real.sin (theta i) ^ 2 + (0 : ℝ) ^ 2 = 1 ∧
    (modelMatrix lift i).mulVec { x := 0, y := 1, z := 0, w := 0 }
      = { x := 0, y := 0, z := 1, w := 0 } := by
  have hr : Real.sqrt 14 ≠ 0 := ringRadius_pos.ne'
  refine ⟨rfl, ?_, ?_, ?_, ?_, ?_⟩
  · simp [modelMatrix_real, Mat4.mulVec, Vec4.scale, Vec4.add, cos_yaw, sin_yaw]
  · rw [headX, ringRadius_real, cos_real]
    field_simp
  · rw [headY, ringRadius_real, sin_real]
    field_simp
  · have := Real.sin_sq_add_cos_sq (theta (i : ℕ) : ℝ)
    linarith
  · simp [modelMatrix_real, Mat4.mulVec, Vec4.scale, Vec4.add]

/-! ## Lemmas on the camera position -/

theorem maxEl_lt_half_pi : radians (89.9 : ℝ) < Real.pi / 2 := by
  have := Real.pi_pos
  rw [radians_real]
  linarith

theorem cos_elevation_pos (e : ℝ) (hlo : -radians 89.9 ≤ e) (hhi : e ≤ radians 89.9) :
    0 < Real.cos e := by
  have h := maxEl_lt_half_pi
  exact Real.cos_pos_of_mem_Ioo ⟨by linarith, by linarith⟩

theorem cameraPosition_real (s : CameraState ℝ) :
    cameraPosition s
      = { x := s.g_radius * Real.cos s.g_elevation * Real.cos s.g_azimuth
          y := s.g_radius * Real.cos s.g_elevation * Real.sin s.g_azimuth
          z := s.g_radius * Real.sin s.g_elevation } := rfl

theorem cameraPosition_sq_xy (s : CameraState ℝ) :
    (cameraPosition s).x ^ 2 + (cameraPosition s).y ^ 2
      = (s.g_radius * Real.cos s.g_elevation) ^ 2 := by
  rw [cameraPosition_real]
  have h := Real.sin_sq_add_cos_sq s.g_azimuth
  linear_combination (s.g_radius * Real.cos s.g_elevation) ^ 2 * h

theorem cameraPosition_sq (s : CameraState ℝ) :
    (cameraPosition s).x ^ 2 + (cameraPosition s).y ^ 2 + (cameraPosition s).z ^ 2
      = s.g_radius ^ 2 := by
  rw [cameraPosition_sq_xy, cameraPosition_real]
  have h := Real.sin_sq_add_cos_sq s.g_elevation
  linear_combination s.g_radius ^ 2 * h

/-- In a state inside the bounds the camera is off the world z-axis, and both vectors
that `glm::lookAt` normalises have a positive squared length. -/
theorem lookAt_regular (s : CameraState ℝ) (hr : 2.0 ≤ s.g_radius)
    (hlo : -radians 89.9 ≤ s.g_elevation) (hhi : s.g_elevation ≤ radians 89.9) :
    0 < (s.g_radius * Real.cos s.g_elevation) ^ 2 ∧
    0 < dot (Vec3.sub ({ x := 0, y := 0, z := 0 } : Vec3 ℝ) (cameraPosition s))
          (Vec3.sub ({ x := 0, y := 0, z := 0 } : Vec3 ℝ) (cameraPosition s)) ∧
    0 < dot (lookAtSide (cameraPosition s) { x := 0, y := 0, z := 0 } { x := 0, y := 0, z := 1 })
          (lookAtSide (cameraPosition s) { x := 0, y := 0, z := 0 } { x := 0, y := 0, z := 1 }) := by
  have hr0 : (0 : ℝ) < s.g_radius := by norm_num at hr; linarith
  have hc := cos_elevation_pos _ hlo hhi
  have hxy : 0 < (s.g_radius * Real.cos s.g_elevation) ^ 2 := by positivity
  have hsq := cameraPosition_sq s
  have hsqxy := cameraPosition_sq_xy s
  have hr2 : 0 < s.g_radius ^ 2 := by positivity
  have hd : dot (Vec3.sub ({ x := 0, y := 0, z := 0 } : Vec3 ℝ) (cameraPosition s))
      (Vec3.sub ({ x := 0, y := 0, z := 0 } : Vec3 ℝ) (cameraPosition s)) = s.g_radius ^ 2 := by
    rw [← hsq]
    simp only [dot, Vec3.sub]
    ring
  refine ⟨hxy, by rw [hd]; exact hr2, ?_⟩
  have hN : Real.sqrt ((0 - (cameraPosition s).x) * (0 - (cameraPosition s).x)
      + (0 - (cameraPosition s).y) * (0 - (cameraPosition s).y)
      + (0 - (cameraPosition s).z) * (0 - (cameraPosition s).z)) = s.g_radius := by
    rw [show (0 - (cameraPosition s).x) * (0 - (cameraPosition s).x)
      + (0 - (cameraPosition s).y) * (0 - (cameraPosition s).y)
      + (0 - (cameraPosition s).z) * (0 - (cameraPosition s).z) = s.g_radius ^ 2 by
        rw [← hsq]; ring]
    exact Real.sqrt_sq hr0.le
  have hs : dot (lookAtSide (cameraPosition s) { x := 0, y := 0, z := 0 } { x := 0, y := 0, z := 1 })
      (lookAtSide (cameraPosition s) { x := 0, y := 0, z := 0 } { x := 0, y := 0, z := 1 })
      = (s.g_radius * Real.cos s.g_elevation) ^ 2 / s.g_radius ^ 2 := by
    simp only [dot, lookAtSide, lookAtForward, cross, normalize, Vec3.sub, sqrt_real, hN]
    rw [← hsqxy]
    field_simp
    ring
  rw [hs]
  positivity

theorem runFrames_snoc_invariant (fs : List (Frame ℝ)) (f : Frame ℝ) (s : CameraState ℝ) :
    2.0 ≤ (runFrames (fs ++ [f]) s).g_radius ∧
      -radians 89.9 ≤ (runFrames (fs ++ [f]) s).g_elevation ∧
      (runFrames (fs ++ [f]) s).g_elevation ≤ radians 89.9 := by
  rw [runFrames_append]
  exact step_invariant f (runFrames fs s)

/-! ## The camera position claims -/

/-- C11: after the last call `f` of any sequence of calls (`fs` empty: one call from any
state), the camera position `(x, y, z)` passed to `glm::lookAt` satisfies
`x^2 + y^2 = (radius*cos(elevation))^2 > 0`: the camera is not at the origin and not on
the world z-axis, and the two vectors `glm::lookAt` normalises, `center - eye` and
`cross(f, up)`, have a positive squared length, so neither square root it divides by is
zero. -/
theorem lookAt_never_degenerate (fs : List (Frame ℝ)) (f : Frame ℝ) (s : CameraState ℝ) :
    let st := runFrames (fs ++ [f]) s
    let cam := cameraPosition st
    let toCenter := Vec3.sub ({ x := 0, y := 0, z := 0 } : Vec3 ℝ) cam
    let side := lookAtSide cam { x := 0, y := 0, z := 0 } { x := 0, y := 0, z := 1 }
    cam.x ^ 2 + cam.y ^ 2 = (st.g_radius * Real.cos st.g_elevation) ^ 2 ∧
    0 < (st.g_radius * Real.cos st.g_elevation) ^ 2 ∧
    ¬ (cam.x = 0 ∧ cam.y = 0) ∧
    ¬ (cam.x = 0 ∧ cam.y = 0 ∧ cam.z = 0) ∧
    0 < dot toCenter toCenter ∧
    MathFns.sqrt (dot toCenter toCenter) ≠ 0 ∧
    side ≠ { x := 0, y := 0, z := 0 } ∧
    0 < dot side side ∧
    MathFns.sqrt (dot side side) ≠ 0 := by
  intro st cam toCenter side
  obtain ⟨hr, hlo, hhi⟩ := runFrames_snoc_invariant fs f s
  obtain ⟨hpos, hd, hs⟩ := lookAt_regular st hr hlo hhi
  have hxy : cam.x ^ 2 + cam.y ^ 2 = (st.g_radius * Real.cos st.g_elevation) ^ 2 :=
    cameraPosition_sq_xy st
  have hoff : ¬ (cam.x = 0 ∧ cam.y = 0) := by
    rintro ⟨hx, hy⟩
    rw [hx, hy] at hxy
    norm_num at hxy
    rw [← hxy] at hpos
    exact lt_irrefl _ hpos
  refine ⟨hxy, hpos, hoff, fun h => hoff ⟨h.1, h.2.1⟩, hd, ?_, ?_, hs, ?_⟩
  · rw [sqrt_real]
    exact (Real.sqrt_pos.mpr hd).ne'
  · intro h
    have hs0 : dot side side = 0 := by
      rw [h]
      simp [dot]
    exact hs.ne' hs0
  · rw [sqrt_real]
    exact (Real.sqrt_pos.mpr hs).ne'

/-- C12: after the last call `f` of any sequence of calls (`fs` empty: one call from any
state), the camera position
`(radius*cos(elevation)*cos(azimuth), radius*cos(elevation)*sin(azimuth), radius*sin(elevation))`
satisfies `x^2 + y^2 + z^2 = radius^2`; its Euclidean distance from the origin is the
radius, which is at least 2.0. -/
theorem camera_distance_is_radius (fs : List (Frame ℝ)) (f : Frame ℝ) (s : CameraState ℝ) :
    let st := runFrames (fs ++ [f]) s
    let cam := cameraPosition st
    cam = { x := st.g_radius * Real.cos st.g_elevation * Real.cos st.g_azimuth
            y := st.g_radius * Real.cos st.g_elevation * Real.sin st.g_azimuth
            z := st.g_radius * Real.sin st.g_elevation } ∧
    cam.x ^ 2 + cam.y ^ 2 + cam.z ^ 2 = st.g_radius ^ 2 ∧
    Real.sqrt (cam.x ^ 2 + cam.y ^ 2 + cam.z ^ 2) = st.g_radius ∧
    2.0 ≤ Real.sqrt (cam.x ^ 2 + cam.y ^ 2 + cam.z ^ 2) := by
  intro st cam
  obtain ⟨hr, -, -⟩ := runFrames_snoc_invariant fs f s
  have hr0 : (0 : ℝ) ≤ st.g_radius := by
    have : (2.0 : ℝ) ≤ st.g_radius := hr
    norm_num at this
    linarith
  have hsq : cam.x ^ 2 + cam.y ^ 2 + cam.z ^ 2 = st.g_radius ^ 2 := cameraPosition_sq st
  have hdist : Real.sqrt (cam.x ^ 2 + cam.y ^ 2 + cam.z ^ 2) = st.g_radius := by
    rw [hsq]
    exact Real.sqrt_sq hr0
  refine ⟨rfl, hsq, hdist, ?_⟩
  rw [hdist]
  exact hr

end Suzanne
